import Mathlib

/-!
Verification of the MIDAS oral-cancer labelling tools
(`Clinical_labelling/support/XC_labeller.py`, the "simple" three-class
variant, and `Histopath_labelling/support/histopath_label_tool.py`, the
multi-tier "grading" variant).

The Python source is shallowly embedded:

* Python dicts become insertion-ordered association lists (`dictGet`,
  `dictSet`, `dictDel` mirror `d.get(k)`, `d[k] = v` and `del d[k]`;
  an assignment to an existing key keeps
  the entry in place, a new key is appended — ordinary dict semantics).
* Wall-clock durations (`time.time() - self.image_start_time`) are
  opaque natural numbers supplied with each event; whether
  `image_start_time` is set becomes the boolean `image_start`.
* The `messagebox` calls that the review loop makes are returned next to
  the new state as `Note` values; GUI-only work (thumbnails, banners,
  widget packing) has no state content and is dropped.
* Python `sorted` with a tuple key becomes `List.insertionSort` over a
  lexicographic comparison of the same tuple, encoded as a `List
  KeyPart` (Python compares key tuples componentwise, strings by code
  point, integers numerically; both sorts are stable).
* `Path.resolve()` is filesystem I/O; the catalog builders receive each
  candidate with its already-resolved path in a `resolved` field, and
  inside the review loop `keyOf` marks the places where the source calls
  `get_key` on paths that the catalog produced.
-/

namespace Midas

/-- One component of a Python sort-key tuple: a string (as its code
points) or an integer. -/
inductive KeyPart where
  | s (cs : List Char)
  | n (v : Nat)
deriving DecidableEq, Repr

/-- Lexicographic comparison of two lists, given a comparison of
elements; shorter prefixes compare as smaller, as in Python. -/
def cmpLex (c : α → α → Ordering) : List α → List α → Ordering
  | [], [] => .eq
  | [], _ :: _ => .lt
  | _ :: _, [] => .gt
  | a :: as, b :: bs =>
    match c a b with
    | .lt => .lt
    | .gt => .gt
    | .eq => cmpLex c as bs

/-- Code-point comparison of characters (Python string comparison is by
code point). -/
def cmpChar (a b : Char) : Ordering :=
  if a < b then .lt else if b < a then .gt else .eq

/-- Numeric comparison of naturals. -/
def cmpNat (a b : Nat) : Ordering :=
  if a < b then .lt else if b < a then .gt else .eq

/-- Comparison of key components.  The two tools never mix a string and
an integer at the same tuple position, so the cross cases are fixed
arbitrarily (strings before integers) just to keep the order total. -/
def cmpPart : KeyPart → KeyPart → Ordering
  | .s a, .s b => cmpLex cmpChar a b
  | .n a, .n b => cmpNat a b
  | .s _, .n _ => .lt
  | .n _, .s _ => .gt

/-- Comparison of whole sort-key tuples. -/
def cmpKey (a b : List KeyPart) : Ordering := cmpLex cmpPart a b

/-- The "not greater" order induced on `α` by a sort-key function, the
order `sorted(..., key=f)` sorts by. -/
def keyLE (f : α → List KeyPart) (x y : α) : Prop := cmpKey (f x) (f y) ≠ .gt

instance (f : α → List KeyPart) : DecidableRel (keyLE f) :=
  fun x y => inferInstanceAs (Decidable (cmpKey (f x) (f y) ≠ .gt))

/-- A string key component. -/
def KeyPart.str (v : String) : KeyPart := .s v.data

/-- A Python dict lookup `d.get(k)` on an insertion-ordered association
list. -/
def dictGet [BEq β] (d : List (β × α)) (k : β) : Option α :=
  (d.find? (fun p => p.1 == k)).map (fun p => p.2)

/-- A Python membership test `k in d`. -/
def dictHas [BEq β] (d : List (β × α)) (k : β) : Bool :=
  (dictGet d k).isSome

/-- A Python dict assignment `d[k] = v`: replaces the value in place
when the key exists (dict insertion order is preserved), otherwise
appends the new binding. -/
def dictSet [BEq β] (d : List (β × α)) (k : β) (v : α) : List (β × α) :=
  if dictHas d k then d.map (fun p => if p.1 == k then (k, v) else p)
  else d ++ [(k, v)]

/-- A Python dict deletion `del d[k]`. -/
def dictDel [BEq β] (d : List (β × α)) (k : β) : List (β × α) :=
  d.filter (fun p => !(p.1 == k))

/-- Python `str.strip()` on the character list: drop whitespace at both
ends. -/
def stripChars (cs : List Char) : List Char :=
  ((cs.dropWhile Char.isWhitespace).reverse.dropWhile Char.isWhitespace).reverse

/-- Python `str.strip()`. -/
def pyStrip (s : String) : String := ⟨stripChars s.data⟩

/-- Python `Path(p).name`: the part of the path after the last slash. -/
def afterLastSlash : List Char → List Char → List Char
  | [], acc => acc.reverse
  | c :: cs, acc =>
    if c = '/' then afterLastSlash cs [] else afterLastSlash cs (c :: acc)

/-- Python `Path(p).name`. -/
def pathName (p : String) : String := ⟨afterLastSlash p.data []⟩

/-- The comment normalisation applied by both CSV writers,
`comment.replace("\n", " ").replace("\r", " ")`: each embedded newline
or carriage-return character becomes a single space (the patterns are
single characters, so the two sequential replaces are a character
map). -/
def normalizeComment (s : String) : String :=
  ⟨s.data.map (fun c => if c = '\n' then ' ' else if c = '\r' then ' ' else c)⟩

/-- A string contains no line-break character. -/
def noLineBreak (s : String) : Bool :=
  s.data.all (fun c => !(c == '\n') && !(c == '\r'))

/-- Decimal rendering of a duration; abstracts the f-string
`f"{t:.2f}"` applied to the stored float duration. -/
def fmtTime (t : Nat) : String := toString t

/-- The `Time_Spent_sec` cell of row `i`:
`f"{SESSION['times'][i]:.2f}" if i < len(SESSION["times"]) else "0"`. -/
def timeCell (times : List Nat) (i : Nat) : String :=
  match times[i]? with
  | some t => fmtTime t
  | none => "0"

/-- `get_key(path) = str(path.resolve())`.  Review-loop paths come out
of the catalog, which already deduplicated them by the resolved string;
inside the loop the path string itself serves as the key. -/
def keyOf (path : String) : String := path

/-- The `messagebox` dialogs the review loop can raise while handling an
event. -/
inductive Note where
  | commentRequired
  | incompleteGrading
  | endOfImages
  | startOfImages
  | labelCleared
  | nothingToClear
deriving DecidableEq, Repr

/-- A value stored in the grading tool's `current_grading` dict: the
diagnosis and tier entries hold strings, the `"ungradable"` entry holds
`True`. -/
inductive GVal where
  | str (s : String)
  | bool (b : Bool)
deriving DecidableEq, Repr

/-- Python truthiness of a stored grading value
(`if self.current_grading.get("ungradable"):`). -/
def GVal.truthy : GVal → Bool
  | .str s => !(s == "")
  | .bool b => b

/-- Rendering of a grading value inside an f-string. -/
def GVal.render : GVal → String
  | .str s => s
  | .bool b => if b then "True" else "False"

end Midas

namespace Clinical

open Midas

/-- An entry of the list returned by `find_clinical_images`, as consumed
by the review loop: `{"case": ..., "visit": ..., "path": ...}`. -/
structure CImg where
  case_id : String
  visit_id : String
  path : String
deriving DecidableEq, Repr

/-- A record of `self.labels`:
`dict(case, visit, file, label, comment)`. -/
structure CLabel where
  case_id : String
  visit_id : String
  file : String
  label : String
  comment : String
deriving DecidableEq, Repr

/-- The mutable state of `ClinicalLabelTool` together with the pieces of
the global `SESSION` dict that the review loop reads and writes. -/
structure CState where
  images : List CImg
  index : Nat
  labels : List (String × CLabel)
  history : List String
  pointer : Int
  times : List Nat
  cases : List String
  image_start : Bool
deriving DecidableEq, Repr

/-- `self.history[self.pointer]` when the pointer is a valid
non-negative index (the source only evaluates it then). -/
def histAt (st : CState) : Option String :=
  if 0 ≤ st.pointer then st.history[st.pointer.toNat]? else none

/-- The state effects of `show_image`: past the end it calls `finish()`
(the review window takes over and this state is frozen); otherwise it
records the visit in `history` unless the pointer already sits on this
image's key, and restarts the per-image timer.  Banner, thumbnail and
info-bar work is display only. -/
def show_image (st : CState) : CState :=
  match st.images[st.index]? with
  | none => st
  | some img =>
    let key := keyOf img.path
    let appendQ := st.pointer == -1 ||
      (!st.history.isEmpty && !(histAt st == some key))
    let st2 :=
      if appendQ then
        { st with history := st.history ++ [key],
                  pointer := (st.history.length : Int) }
      else st
    { st2 with image_start := true }

/-- The record `save_label` stores for the image at the cursor. -/
def mkCLabel (img : CImg) (lab comment : String) : CLabel :=
  { case_id := img.case_id, visit_id := img.visit_id,
    file := pathName img.path, label := lab, comment := comment }

/-- `save_label(label, comment="")`: upserts the record under the
image's key, pushes the elapsed duration when the timer was running,
records the case, advances the cursor and shows the next image.
`none` models the uncaught `IndexError` of `self.images[self.index]`
when the cursor is past the end (unreachable from the GUI, which has
already called `finish()` there). -/
def save_label (st : CState) (lab comment : String) (d : Nat) : Option CState :=
  (st.images[st.index]?).map fun img =>
    let labels := dictSet st.labels (keyOf img.path) (mkCLabel img lab comment)
    let times := if st.image_start then st.times ++ [d] else st.times
    let cases :=
      if img.case_id ∈ st.cases then st.cases else st.cases ++ [img.case_id]
    show_image { st with labels := labels, times := times, cases := cases,
                         image_start := false, index := st.index + 1 }

/-- The `comment_window` dialog's "Save as NA" action:
`self.save_label("NA", txt.get("1.0", tk.END).strip())`.  The dialog
imposes no condition on the comment. -/
def comment_window_save (st : CState) (txt : String) (d : Nat) : Option CState :=
  save_label st "NA" (pyStrip txt) d

/-- `go_back`: steps the history pointer back, moves the cursor to the
first catalog entry whose key matches the remembered key (unchanged when
none matches), pops the most recent duration, and re-shows.  With the
pointer at 0 or -1 it only reports "Already at the first image."
`none` models the uncaught `IndexError` on `self.history[self.pointer]`
(unreachable: a positive pointer is always a valid index). -/
def go_back (st : CState) : Option (CState × Option Note) :=
  if 0 < st.pointer then
    let p := st.pointer - 1
    match st.history[p.toNat]? with
    | none => none
    | some prevKey =>
      let idx :=
        match st.images.findIdx? (fun o => keyOf o.path == prevKey) with
        | some i => i
        | none => st.index
      some (show_image
        { st with pointer := p, index := idx, times := st.times.dropLast },
        none)
  else some (st, some Note.startOfImages)

/-- `relabel_current`: deletes the stored label for the current image if
present (then refreshes the counts display), otherwise reports that the
image has no label yet.  Past the end it does nothing. -/
def relabel_current (st : CState) : CState × Option Note :=
  match st.images[st.index]? with
  | none => (st, none)
  | some img =>
    let key := keyOf img.path
    if dictHas st.labels key then
      ({ st with labels := dictDel st.labels key }, some Note.labelCleared)
    else (st, some Note.nothingToClear)

/-- The Suspicious count of `update_info_display` (and `_write_summary`):
`sum(1 for v in self.labels.values() if v["label"] == "Suspicious")`. -/
def countSuspicious (labels : List (String × CLabel)) : Nat :=
  labels.countP (fun p => p.2.label == "Suspicious")

/-- The Non-Suspicious count of `update_info_display`. -/
def countNonSuspicious (labels : List (String × CLabel)) : Nat :=
  labels.countP (fun p => p.2.label == "Non-Suspicious")

/-- The NA count of `update_info_display`. -/
def countNA (labels : List (String × CLabel)) : Nat :=
  labels.countP (fun p => p.2.label == "NA")

/-- A candidate image met by `find_clinical_images` while walking
Case/Visit/… in traversal order, with the metadata the source attaches
and the outcome of `str(img.resolve())` (filesystem I/O) alongside the
raw path string. -/
structure CCand where
  case_id : String
  visit_id : String
  path : String
  resolved : String
deriving DecidableEq, Repr

/-- The catalog sort key of `find_clinical_images`:
`(x["case"], x["visit"], str(x["path"]))`. -/
def cCandKey (c : CCand) : List KeyPart :=
  [KeyPart.str c.case_id, KeyPart.str c.visit_id, KeyPart.str c.path]

/-- The dedup-by-resolved-path scan both discovery walks perform: keep a
candidate only when its resolved path was not seen before. -/
def dedupByResolved (res : α → String) : List String → List α → List α
  | _, [] => []
  | seen, c :: cs =>
    if res c ∈ seen then dedupByResolved res seen cs
    else c :: dedupByResolved res (res c :: seen) cs

/-- `find_clinical_images`, applied to the candidate images in traversal
order: deduplicate by resolved path, then sort by
`(case, visit, str(path))`. -/
def find_clinical_images (cands : List CCand) : List CCand :=
  List.insertionSort (keyLE cCandKey) (dedupByResolved CCand.resolved [] cands)

/-- A row of the clinical CSV (columns
`case, visit, file, label, comment`). -/
structure CRow where
  case_id : String
  visit_id : String
  file : String
  label : String
  comment : String
deriving DecidableEq, Repr

/-- One output row of `_write_csv`: the record's fields with the comment
cleaned of line breaks. -/
def mkCRow (l : CLabel) : CRow :=
  { case_id := l.case_id, visit_id := l.visit_id, file := l.file,
    label := l.label, comment := normalizeComment l.comment }

/-- The CSV row sort key of the clinical `_write_csv`:
`(r["case"], r["visit"], r["file"])` — note `file` is the bare file
name, not the full path the catalog sorted by. -/
def cLabKey (l : CLabel) : List KeyPart :=
  [KeyPart.str l.case_id, KeyPart.str l.visit_id, KeyPart.str l.file]

/-- The rows of the clinical `_write_csv` (the summary and the header
aside): `sorted(self.labels.values(), key=...)`, each serialised with
the comment normalised. -/
def write_csv_rows (labels : List (String × CLabel)) : List CRow :=
  (List.insertionSort (keyLE cLabKey) (labels.map (fun p => p.2))).map mkCRow

end Clinical

namespace Histopath

open Midas

/-- An entry of the list returned by `find_histopath_images`, as
consumed by the review loop. -/
structure ImgInfo where
  case_id : String
  visit_id : String
  body_site : String
  magnification : String
  mag_value : Nat
  filename : String
  path : String
deriving DecidableEq, Repr

/-- The `current_grading` dict: keys among `"diagnosis"`, `"binary"`,
`"three_tier"`, `"three_tier_diff"` (string values) and `"ungradable"`
(`True`). -/
abbrev Grading := List (String × GVal)

/-- `self.current_grading.get(k)` read as a string; the diagnosis and
tier slots only ever hold strings. -/
def gradingStr (g : Grading) (k : String) : Option String :=
  match dictGet g k with
  | some (GVal.str s) => some s
  | some (GVal.bool _) => none
  | none => none

/-- `if self.current_grading.get(k):` — present and truthy. -/
def gradTruthy (g : Grading) (k : String) : Bool :=
  match dictGet g k with
  | some v => v.truthy
  | none => false

/-- A record of `self.labels`. -/
structure HLabel where
  case_id : String
  visit_id : String
  body_site : String
  magnification : String
  mag_value : Nat
  filename : String
  diagnosis : Option String
  subtype : String
  comment : String
deriving DecidableEq, Repr

/-- The mutable state of `HistopathLabelTool` together with the pieces
of the global `SESSION` dict the review loop reads and writes. -/
structure HState where
  images : List ImgInfo
  index : Nat
  labels : List (String × HLabel)
  current_primary : Option String
  current_grading : Grading
  times : List Nat
  cases : List String
  image_start : Bool
deriving DecidableEq, Repr

/-- The state effects of `show_image`: past the end it calls `finish()`
(export and window close; the state is frozen); otherwise it restarts
the per-image timer and resets the selection form
(`current_primary = None`, `current_grading = {}`). -/
def show_image (st : HState) : HState :=
  if st.index < st.images.length then
    { st with image_start := true, current_primary := none,
              current_grading := [] }
  else st

/-- `select_primary(diagnosis)`: records the primary diagnosis and
restarts the grading dict at `{"diagnosis": diagnosis}`. -/
def select_primary (st : HState) (diagnosis : String) : HState :=
  { st with current_primary := some diagnosis,
            current_grading := [("diagnosis", GVal.str diagnosis)] }

/-- `select_grading(tier, value)`: drops the `"ungradable"` marker when
present, then records the tier value. -/
def select_grading (st : HState) (tier value : String) : HState :=
  let g :=
    if dictHas st.current_grading "ungradable" then
      dictDel st.current_grading "ungradable"
    else st.current_grading
  { st with current_grading := dictSet g tier (GVal.str value) }

/-- `select_ungradable()`: deletes every key except `"diagnosis"`, then
sets `"ungradable"` to `True`. -/
def select_ungradable (st : HState) : HState :=
  let g := st.current_grading.filter (fun p => p.1 == "diagnosis")
  { st with current_grading := dictSet g "ungradable" (GVal.bool true) }

/-- The record `save_label_to_storage` stores for the image at the
cursor. -/
def mkHLabel (img : ImgInfo) (diagnosis : Option String)
    (subtype comment : String) : HLabel :=
  { case_id := img.case_id, visit_id := img.visit_id,
    body_site := img.body_site, magnification := img.magnification,
    mag_value := img.mag_value, filename := img.filename,
    diagnosis := diagnosis, subtype := subtype, comment := comment }

/-- `save_label_to_storage(diagnosis, subtype, comment)`: upserts the
record under the image's key, pushes the elapsed duration when the timer
is running, records the case, advances the cursor, resets the selection
and shows the next image.  `none` models the uncaught `IndexError` of
`self.images[self.index]` past the end (unreachable from the GUI). -/
def save_label_to_storage (st : HState) (diagnosis : Option String)
    (subtype comment : String) (d : Nat) : Option HState :=
  (st.images[st.index]?).map fun img =>
    let labels :=
      dictSet st.labels (keyOf img.path) (mkHLabel img diagnosis subtype comment)
    let times := if st.image_start then st.times ++ [d] else st.times
    let cases :=
      if img.case_id ∈ st.cases then st.cases else st.cases ++ [img.case_id]
    show_image { st with labels := labels, times := times, cases := cases,
                         index := st.index + 1, current_primary := none,
                         current_grading := [] }

/-- `save_label_simple(subtype)`: reads and strips the comment box,
rejects an `Indeterminate` diagnosis with an empty comment (warning
dialog, no state change), otherwise stores the record. -/
def save_label_simple (st : HState) (subtype rawComment : String)
    (d : Nat) : Option (HState × Option Note) :=
  let comment := pyStrip rawComment
  let diagnosis := gradingStr st.current_grading "diagnosis"
  if diagnosis == some "Indeterminate" && comment == "" then
    some (st, some Note.commentRequired)
  else
    (save_label_to_storage st diagnosis subtype comment d).map
      (fun s => (s, none))

/-- `save_multi_tier_label()`: with the `"ungradable"` marker set, an
empty comment is rejected, otherwise the subtype is `"Ungradable"`; for
`Dysplasia` both the binary and the three-tier grade must be present
(else an "incomplete" warning and no state change) and the subtype is
`f"Binary:{..}|ThreeTier:{..}"`; for `Cancer` the three-tier
differentiation must be present and the subtype is `f"ThreeTier:{..}"`;
any other diagnosis falls through with no save. -/
def save_multi_tier_label (st : HState) (rawComment : String)
    (d : Nat) : Option (HState × Option Note) :=
  let diagnosis := gradingStr st.current_grading "diagnosis"
  let comment := pyStrip rawComment
  if gradTruthy st.current_grading "ungradable" then
    if comment == "" then some (st, some Note.commentRequired)
    else
      (save_label_to_storage st diagnosis "Ungradable" comment d).map
        (fun s => (s, none))
  else if diagnosis == some "Dysplasia" then
    match dictGet st.current_grading "binary",
          dictGet st.current_grading "three_tier" with
    | some b, some t =>
      (save_label_to_storage st diagnosis
        ("Binary:" ++ b.render ++ "|ThreeTier:" ++ t.render) comment d).map
        (fun s => (s, none))
    | _, _ => some (st, some Note.incompleteGrading)
  else if diagnosis == some "Cancer" then
    match dictGet st.current_grading "three_tier_diff" with
    | some t =>
      (save_label_to_storage st diagnosis ("ThreeTier:" ++ t.render)
        comment d).map (fun s => (s, none))
    | none => some (st, some Note.incompleteGrading)
  else some (st, none)

/-- `next_image`: moves forward only while strictly before the last
image (resetting the selection and re-showing); at the last image it
only reports "This is the last image."  (Python compares against
`len - 1` over the integers; over `Nat` the truncated `length - 1`
selects the same branch for every length, including 0.) -/
def next_image (st : HState) : HState × Option Note :=
  if st.index < st.images.length - 1 then
    (show_image { st with index := st.index + 1, current_primary := none,
                          current_grading := [] },
     none)
  else (st, some Note.endOfImages)

/-- `relabel_current`: deletes the stored label for the current image if
present (then re-shows), otherwise reports that the image has no label
yet.  Past the end it does nothing. -/
def relabel_current (st : HState) : HState × Option Note :=
  match st.images[st.index]? with
  | none => (st, none)
  | some img =>
    if dictHas st.labels (keyOf img.path) then
      (show_image { st with labels := dictDel st.labels (keyOf img.path) },
       some Note.labelCleared)
    else (st, some Note.nothingToClear)

/-- A candidate image met by `find_histopath_images` while walking
Case/Visit/…/histopath/BodySite/Magnification in traversal order, with
the metadata the source attaches and the outcome of
`str(img_path.resolve())` alongside the raw path string. -/
structure HCand where
  case_id : String
  visit_id : String
  body_site : String
  magnification : String
  mag_value : Nat
  filename : String
  path : String
  resolved : String
deriving DecidableEq, Repr

/-- The catalog sort key of `find_histopath_images`:
`(case_id, visit_id, body_site, mag_value, filename)`. -/
def hCandKey (c : HCand) : List KeyPart :=
  [KeyPart.str c.case_id, KeyPart.str c.visit_id, KeyPart.str c.body_site,
   KeyPart.n c.mag_value, KeyPart.str c.filename]

/-- `find_histopath_images`, applied to the candidate images in
traversal order: deduplicate by resolved path, then sort by
`(case_id, visit_id, body_site, mag_value, filename)`. -/
def find_histopath_images (cands : List HCand) : List HCand :=
  List.insertionSort (keyLE hCandKey)
    (Clinical.dedupByResolved HCand.resolved [] cands)

/-- A row of the grading CSV.  The `Timestamp` column
(`datetime.now()`, pure wall clock) is omitted. -/
structure HRow where
  case_id : String
  visit_id : String
  body_site : String
  magnification : String
  image_file : String
  diagnosis : String
  subtype : String
  comment : String
  time_spent : String
  annotator : String
deriving DecidableEq, Repr

/-- One output row of the grading `_write_csv`: the record's fields,
the comment cleaned of line breaks, and the `Time_Spent_sec` cell taken
from the duration list at the row's position (a stored `None` diagnosis
would be written as the empty cell, hence `getD ""`). -/
def mkHRow (ann : String) (l : HLabel) (cell : String) : HRow :=
  { case_id := l.case_id, visit_id := l.visit_id, body_site := l.body_site,
    magnification := l.magnification, image_file := l.filename,
    diagnosis := l.diagnosis.getD "", subtype := l.subtype,
    comment := normalizeComment l.comment, time_spent := cell,
    annotator := ann }

/-- The CSV row sort key of the grading `_write_csv`:
`(case_id, visit_id, body_site, mag_value, filename)` — the same tuple
the catalog was sorted by. -/
def hLabKey (l : HLabel) : List KeyPart :=
  [KeyPart.str l.case_id, KeyPart.str l.visit_id, KeyPart.str l.body_site,
   KeyPart.n l.mag_value, KeyPart.str l.filename]

/-- The `for i, row in enumerate(rows): writer.writerow(...)` loop:
row `i` gets `timeCell times i`. -/
def rows_from (times : List Nat) (ann : String) : Nat → List HLabel → List HRow
  | _, [] => []
  | i, l :: ls => mkHRow ann l (timeCell times i) :: rows_from times ann (i + 1) ls

/-- `sorted(self.labels.values(), key=...)` of the grading
`_write_csv`. -/
def sorted_labels (labels : List (String × HLabel)) : List HLabel :=
  List.insertionSort (keyLE hLabKey) (labels.map (fun p => p.2))

/-- The rows of the grading `_write_csv` (header and summary aside). -/
def write_csv_rows (labels : List (String × HLabel)) (times : List Nat)
    (ann : String) : List HRow :=
  rows_from times ann 0 (sorted_labels labels)

/-- The per-diagnosis tally of `_write_summary`:
`counts[d] = counts.get(d, 0) + 1` over `self.labels.values()`. -/
def summary_counts (labels : List (String × HLabel)) :
    List (Option String × Nat) :=
  (labels.map (fun p => p.2)).foldl
    (fun cnts l =>
      dictSet cnts l.diagnosis ((dictGet cnts l.diagnosis).getD 0 + 1))
    []

/-- `counts.get(d, 0)` read out of the tally. -/
def countOf (cnts : List (Option String × Nat)) (d : Option String) : Nat :=
  (dictGet cnts d).getD 0

end Histopath

namespace Clinical

open Midas

/-- Labelling a run of images in catalog order: one `save_label` event
per category, as raised by the Suspicious / Non-Suspicious buttons (the
duration pushed for each is irrelevant to the stored labels and fixed at
0). -/
def runSaves (st : CState) : List String → Option CState
  | [] => some st
  | c :: cs =>
    match save_label st c "" 0 with
    | none => none
    | some st2 => runSaves st2 cs

/-- The state `ClinicalLabelTool.__init__` hands to the event loop:
fresh store, pointer `-1`, then the initial `show_image`. -/
def initState (images : List CImg) : CState :=
  show_image
    { images := images, index := 0, labels := [], history := [],
      pointer := -1, times := [], cases := [], image_start := false }

/-- The catalog sort key of a store entry, keyed like
`find_clinical_images` keys its records: `(case, visit, path)`, the
store key being the resolved path. -/
def cCatEntryKey (p : String × CLabel) : List KeyPart :=
  [KeyPart.str p.2.case_id, KeyPart.str p.2.visit_id, KeyPart.str p.1]

/-- Spec-side reading of "rows sorted by the same key as the Catalog
order" for the simple variant, written from the spec sentence for
comparison with `write_csv_rows`: serialise the stored records in
catalog order, i.e. sorted by `(case, visit, full path string)`. -/
def rows_in_catalog_order (labels : List (String × CLabel)) : List CRow :=
  (List.insertionSort (keyLE cCatEntryKey) labels).map (fun p => mkCRow p.2)

end Clinical

namespace Histopath

open Midas

/-- The mixture-freedom invariant of the in-progress grading selection:
the `"ungradable"` marker never coexists with a tier value. -/
def gradingInvariant (g : Grading) : Prop :=
  dictHas g "ungradable" = true →
    dictHas g "binary" = false ∧ dictHas g "three_tier" = false ∧
    dictHas g "three_tier_diff" = false

end Histopath

namespace Midas

/-- A sample clinical catalog entry (XC folder, file `a.jpg`). -/
def imgA : Clinical.CImg :=
  { case_id := "CaseA", visit_id := "V1", path := "/r/CaseA/V1/XC/a.jpg" }

/-- A sample clinical catalog entry (CLINICAL folder, file `z.jpg`);
its full path sorts before `imgA`'s, its file name after. -/
def imgZ : Clinical.CImg :=
  { case_id := "CaseA", visit_id := "V1", path := "/r/CaseA/V1/CLINICAL/z.jpg" }

/-- A clinical session showing `imgA` with nothing labelled yet. -/
def cStart : Clinical.CState :=
  { images := [imgA], index := 0, labels := [],
    history := ["/r/CaseA/V1/XC/a.jpg"], pointer := 0, times := [],
    cases := [], image_start := true }

/-- A stored clinical record for `imgZ`. -/
def labZ : Clinical.CLabel :=
  { case_id := "CaseA", visit_id := "V1", file := "z.jpg",
    label := "Suspicious", comment := "" }

/-- A stored clinical record for `imgA`. -/
def labA : Clinical.CLabel :=
  { case_id := "CaseA", visit_id := "V1", file := "a.jpg",
    label := "Suspicious", comment := "" }

/-- A label store holding both sample records, `imgZ` labelled first. -/
def storeZA : List (String × Clinical.CLabel) :=
  [(imgZ.path, labZ), (imgA.path, labA)]

/-- A sample grading-variant catalog entry. -/
def hImg1 : Histopath.ImgInfo :=
  { case_id := "C1", visit_id := "V1", body_site := "Tongue",
    magnification := "10x", mag_value := 10, filename := "i1.jpg",
    path := "/r/C1/V1/HISTOPATH/Tongue/10x/i1.jpg" }

/-- A grading session showing `hImg1` with nothing selected yet. -/
def hBase : Histopath.HState :=
  { images := [hImg1], index := 0, labels := [], current_primary := none,
    current_grading := [], times := [], cases := [], image_start := true }

/-- `hBase` after clicking the Indeterminate primary button. -/
def hStInd : Histopath.HState := Histopath.select_primary hBase "Indeterminate"

/-- `hBase` after selecting Dysplasia and marking it Ungradable. -/
def hStUng : Histopath.HState :=
  Histopath.select_ungradable (Histopath.select_primary hBase "Dysplasia")

/-- `hBase` after selecting Dysplasia and only the binary grade. -/
def hStDysBinary : Histopath.HState :=
  Histopath.select_grading (Histopath.select_primary hBase "Dysplasia")
    "binary" "Low_Risk"

/-- `hStDysBinary` with the three-tier grade selected as well. -/
def hStDysBoth : Histopath.HState :=
  Histopath.select_grading hStDysBinary "three_tier" "Mild"

/-- `hBase` after clicking the Cancer primary button (no grade yet). -/
def hStCancer : Histopath.HState := Histopath.select_primary hBase "Cancer"

/-- A stored grading record with a multi-line comment. -/
def hLabComment : Histopath.HLabel :=
  { case_id := "C1", visit_id := "V1", body_site := "Tongue",
    magnification := "10x", mag_value := 10, filename := "i1.jpg",
    diagnosis := some "Normal", subtype := "Stroma",
    comment := "line one\nline two\rend" }

end Midas

namespace Midas

theorem cmpLex_swap (c : α → α → Ordering) (hsw : ∀ a b, c a b = (c b a).swap) :
    ∀ as bs, cmpLex c as bs = (cmpLex c bs as).swap := by
  intro as
  induction as with
  | nil => intro bs; cases bs <;> rfl
  | cons a as ih =>
    intro bs
    cases bs with
    | nil => rfl
    | cons b bs =>
      simp only [cmpLex]
      rw [hsw a b]
      cases c b a <;> simp [Ordering.swap, ih bs]

theorem cmpLex_eq (c : α → α → Ordering) (heq : ∀ a b, c a b = .eq → a = b) :
    ∀ as bs, cmpLex c as bs = .eq → as = bs := by
  intro as
  induction as with
  | nil =>
    intro bs h
    cases bs with
    | nil => rfl
    | cons b bs => simp [cmpLex] at h
  | cons a as ih =>
    intro bs h
    cases bs with
    | nil => simp [cmpLex] at h
    | cons b bs =>
      simp only [cmpLex] at h
      cases hc : c a b <;> rw [hc] at h
      · exact absurd h (by simp)
      · rw [heq a b hc, ih bs h]
      · exact absurd h (by simp)

theorem cmpLex_lt_trans (c : α → α → Ordering)
    (heq : ∀ a b, c a b = .eq → a = b)
    (htr : ∀ a b d, c a b = .lt → c b d = .lt → c a d = .lt) :
    ∀ as bs ds, cmpLex c as bs = .lt → cmpLex c bs ds = .lt →
      cmpLex c as ds = .lt := by
  intro as
  induction as with
  | nil =>
    intro bs ds h1 h2
    cases bs with
    | nil => exact h2
    | cons b bs =>
      cases ds with
      | nil => simp [cmpLex] at h2
      | cons d ds => rfl
  | cons a as ih =>
    intro bs ds h1 h2
    cases bs with
    | nil => simp [cmpLex] at h1
    | cons b bs =>
      cases ds with
      | nil => simp [cmpLex] at h2
      | cons d ds =>
        simp only [cmpLex] at h1 h2 ⊢
        cases hab : c a b <;> rw [hab] at h1
        · cases hbd : c b d <;> rw [hbd] at h2
          · rw [htr a b d hab hbd]
          · rw [heq b d hbd] at hab; rw [hab]
          · simp at h2
        · cases hbd : c b d <;> rw [hbd] at h2
          · rw [heq a b hab] at *; rw [hbd]
          · obtain rfl := heq a b hab
            obtain rfl := heq a d hbd
            rw [hab]
            exact ih bs ds h1 h2
          · simp at h2
        · simp at h1

end Midas

namespace Midas

theorem cmpChar_swap (a b : Char) : cmpChar a b = (cmpChar b a).swap := by
  unfold cmpChar
  rcases lt_trichotomy a b with h | h | h
  · simp [h, lt_asymm h, Ordering.swap]
  · subst h; simp [lt_irrefl, Ordering.swap]
  · simp [h, lt_asymm h, Ordering.swap]

theorem cmpChar_eq (a b : Char) (h : cmpChar a b = .eq) : a = b := by
  unfold cmpChar at h
  by_cases h1 : a < b
  · simp [h1] at h
  · by_cases h2 : b < a
    · simp [h1, h2] at h
    · exact le_antisymm (le_of_not_lt h2) (le_of_not_lt h1)

theorem cmpChar_lt_iff (a b : Char) : cmpChar a b = .lt ↔ a < b := by
  unfold cmpChar
  by_cases h1 : a < b
  · simp [h1]
  · by_cases h2 : b < a <;> simp [h1, h2]

theorem cmpNat_swap (a b : Nat) : cmpNat a b = (cmpNat b a).swap := by
  unfold cmpNat
  rcases lt_trichotomy a b with h | h | h
  · simp [h, lt_asymm h, Ordering.swap]
  · subst h; simp [lt_irrefl, Ordering.swap]
  · simp [h, lt_asymm h, Ordering.swap]

theorem cmpNat_eq (a b : Nat) (h : cmpNat a b = .eq) : a = b := by
  unfold cmpNat at h
  by_cases h1 : a < b
  · simp [h1] at h
  · by_cases h2 : b < a
    · simp [h1, h2] at h
    · omega

theorem cmpNat_lt_iff (a b : Nat) : cmpNat a b = .lt ↔ a < b := by
  unfold cmpNat
  by_cases h1 : a < b
  · simp [h1]
  · by_cases h2 : b < a <;> simp [h1, h2]

theorem cmpChar_lt_trans (x y z : Char) (hx : cmpChar x y = .lt)
    (hy : cmpChar y z = .lt) : cmpChar x z = .lt :=
  (cmpChar_lt_iff x z).mpr
    (lt_trans ((cmpChar_lt_iff x y).mp hx) ((cmpChar_lt_iff y z).mp hy))

theorem cmpPart_swap (a b : KeyPart) : cmpPart a b = (cmpPart b a).swap := by
  cases a with
  | s x =>
    cases b with
    | s y => exact cmpLex_swap cmpChar cmpChar_swap x y
    | n y => rfl
  | n x =>
    cases b with
    | s y => rfl
    | n y => exact cmpNat_swap x y

theorem cmpPart_eq (a b : KeyPart) (h : cmpPart a b = .eq) : a = b := by
  cases a with
  | s x =>
    cases b with
    | s y => rw [cmpLex_eq cmpChar cmpChar_eq x y h]
    | n y => exact absurd h (by simp [cmpPart])
  | n x =>
    cases b with
    | s y => exact absurd h (by simp [cmpPart])
    | n y => rw [cmpNat_eq x y h]

theorem cmpPart_lt_trans (a b d : KeyPart) (h1 : cmpPart a b = .lt)
    (h2 : cmpPart b d = .lt) : cmpPart a d = .lt := by
  cases a with
  | s x =>
    cases b with
    | s y =>
      cases d with
      | s z => exact cmpLex_lt_trans cmpChar cmpChar_eq cmpChar_lt_trans x y z h1 h2
      | n z => rfl
    | n y =>
      cases d with
      | s z => exact absurd h2 (by simp [cmpPart])
      | n z => rfl
  | n x =>
    cases b with
    | s y => exact absurd h1 (by simp [cmpPart])
    | n y =>
      cases d with
      | s z => exact absurd h2 (by simp [cmpPart])
      | n z =>
        exact (cmpNat_lt_iff x z).mpr
          (lt_trans ((cmpNat_lt_iff x y).mp h1) ((cmpNat_lt_iff y z).mp h2))

theorem cmpKey_swap (a b : List KeyPart) : cmpKey a b = (cmpKey b a).swap :=
  cmpLex_swap cmpPart cmpPart_swap a b

theorem cmpKey_eq (a b : List KeyPart) (h : cmpKey a b = .eq) : a = b :=
  cmpLex_eq cmpPart cmpPart_eq a b h

theorem cmpKey_lt_trans (a b d : List KeyPart) (h1 : cmpKey a b = .lt)
    (h2 : cmpKey b d = .lt) : cmpKey a d = .lt :=
  cmpLex_lt_trans cmpPart cmpPart_eq cmpPart_lt_trans a b d h1 h2

instance keyLE_isTotal (f : α → List KeyPart) : IsTotal α (keyLE f) := ⟨by
  intro a b
  by_cases h : cmpKey (f a) (f b) = .gt
  · right
    intro h2
    rw [cmpKey_swap (f a) (f b), h2] at h
    simp [Ordering.swap] at h
  · left; exact h⟩

instance keyLE_isTrans (f : α → List KeyPart) : IsTrans α (keyLE f) := ⟨by
  intro a b d h1 h2
  unfold keyLE at *
  cases hab : cmpKey (f a) (f b) with
  | gt => exact absurd hab h1
  | eq => rw [cmpKey_eq _ _ hab]; exact h2
  | lt =>
    cases hbd : cmpKey (f b) (f d) with
    | gt => exact absurd hbd h2
    | eq => rw [← cmpKey_eq _ _ hbd]; simp [hab]
    | lt => simp [cmpKey_lt_trans _ _ _ hab hbd]⟩

end Midas

namespace Midas

theorem dictGet_cons [BEq β] (p : β × α) (d : List (β × α)) (k : β) :
    dictGet (p :: d) k = if p.1 == k then some p.2 else dictGet d k := by
  unfold dictGet
  rw [List.find?_cons]
  cases h : p.1 == k <;> simp [h]

theorem dictHas_cons [BEq β] (p : β × α) (d : List (β × α)) (k : β) :
    dictHas (p :: d) k = (p.1 == k || dictHas d k) := by
  unfold dictHas
  rw [dictGet_cons]
  cases h : p.1 == k <;> simp [h]

theorem dictGet_map_replace [BEq β] [LawfulBEq β] (v : α) :
    ∀ (d : List (β × α)) (k : β), dictHas d k = true →
      dictGet (d.map (fun p => if p.1 == k then (k, v) else p)) k = some v := by
  intro d
  induction d with
  | nil => intro k h; simp [dictHas, dictGet] at h
  | cons p d ih =>
    intro k h
    rw [dictHas_cons] at h
    cases hpk : p.1 == k
    · rw [List.map_cons, if_neg (by simp [hpk]), dictGet_cons, if_neg (by simp [hpk])]
      exact ih k (by simpa [hpk] using h)
    · rw [List.map_cons, if_pos (by simp [hpk]), dictGet_cons]
      simp

theorem dictGet_append_single [BEq β] [LawfulBEq β] (v : α) :
    ∀ (d : List (β × α)) (k : β), dictHas d k = false →
      dictGet (d ++ [(k, v)]) k = some v := by
  intro d
  induction d with
  | nil => intro k _; simp [dictGet_cons, dictGet]
  | cons p d ih =>
    intro k h
    rw [dictHas_cons] at h
    cases hpk : p.1 == k
    · rw [List.cons_append, dictGet_cons, if_neg (by simp [hpk])]
      exact ih k (by simpa [hpk] using h)
    · rw [hpk] at h; simp at h

theorem dictGet_dictSet_self [BEq β] [LawfulBEq β] (d : List (β × α))
    (k : β) (v : α) : dictGet (dictSet d k v) k = some v := by
  unfold dictSet
  cases h : dictHas d k
  · rw [if_neg (by simp [h])]
    exact dictGet_append_single v d k h
  · rw [if_pos (by simp [h])]
    exact dictGet_map_replace v d k h

theorem dictGet_map_replace_ne [BEq β] [LawfulBEq β] (v : α) (k k2 : β)
    (hne : k2 ≠ k) :
    ∀ (d : List (β × α)),
      dictGet (d.map (fun p => if p.1 == k then (k, v) else p)) k2 =
        dictGet d k2 := by
  intro d
  induction d with
  | nil => rfl
  | cons p d ih =>
    cases hpk : p.1 == k
    · rw [List.map_cons, if_neg (by simp [hpk]), dictGet_cons, dictGet_cons, ih]
    · have hp : p.1 = k := by exact eq_of_beq hpk
      rw [List.map_cons, if_pos (by simp [hpk]), dictGet_cons, dictGet_cons, ih]
      have h1 : (k == k2) = false := by
        cases h2 : k == k2
        · rfl
        · exact absurd (eq_of_beq h2).symm hne
      have h2 : (p.1 == k2) = false := by
        rw [hp]; exact h1
      rw [h1, h2]
      simp

theorem dictGet_append_single_ne [BEq β] [LawfulBEq β] (v : α) (k k2 : β)
    (hne : k2 ≠ k) :
    ∀ (d : List (β × α)), dictGet (d ++ [(k, v)]) k2 = dictGet d k2 := by
  intro d
  induction d with
  | nil =>
    have h1 : (k == k2) = false := by
      cases h2 : k == k2
      · rfl
      · exact absurd (eq_of_beq h2).symm hne
    simp [dictGet_cons, dictGet, h1]
  | cons p d ih =>
    rw [List.cons_append, dictGet_cons, dictGet_cons, ih]

theorem dictGet_dictSet_ne [BEq β] [LawfulBEq β] (d : List (β × α))
    (k k2 : β) (v : α) (hne : k2 ≠ k) :
    dictGet (dictSet d k v) k2 = dictGet d k2 := by
  unfold dictSet
  cases h : dictHas d k
  · rw [if_neg (by simp [h])]
    exact dictGet_append_single_ne v k k2 hne d
  · rw [if_pos (by simp [h])]
    exact dictGet_map_replace_ne v k k2 hne d

theorem dictHas_dictSet_ne [BEq β] [LawfulBEq β] (d : List (β × α))
    (k k2 : β) (v : α) (hne : k2 ≠ k) :
    dictHas (dictSet d k v) k2 = dictHas d k2 := by
  unfold dictHas
  rw [dictGet_dictSet_ne d k k2 v hne]

theorem dictHas_dictDel_self [BEq β] (d : List (β × α)) (k : β) :
    dictHas (dictDel d k) k = false := by
  induction d with
  | nil => rfl
  | cons p d ih =>
    unfold dictDel
    rw [List.filter_cons]
    cases hpk : p.1 == k
    · rw [if_pos (by simp [hpk]), dictHas_cons, hpk]
      simpa [dictDel] using ih
    · rw [if_neg (by simp [hpk])]
      simpa [dictDel] using ih

theorem dictHas_filter_single [BEq β] [LawfulBEq β] (d : List (β × α))
    (k kf : β) (hne : k ≠ kf) :
    dictHas (d.filter (fun p => p.1 == kf)) k = false := by
  induction d with
  | nil => rfl
  | cons p d ih =>
    rw [List.filter_cons]
    cases hpk : p.1 == kf
    · rw [if_neg (by simp [hpk])]
      exact ih
    · rw [if_pos (by simp [hpk]), dictHas_cons]
      have h2 : (p.1 == k) = false := by
        cases h3 : p.1 == k
        · rfl
        · exact absurd ((eq_of_beq h3).symm.trans (eq_of_beq hpk)) hne
      rw [h2, ih]
      rfl

theorem mem_of_dictHas [BEq β] [LawfulBEq β] (d : List (β × α)) (k : β)
    (h : dictHas d k = true) : k ∈ d.map Prod.fst := by
  induction d with
  | nil => simp [dictHas, dictGet] at h
  | cons p d ih =>
    rw [dictHas_cons] at h
    cases hpk : p.1 == k
    · exact List.mem_cons_of_mem _ (ih (by simpa [hpk] using h))
    · rw [List.map_cons, ← eq_of_beq hpk]
      exact List.mem_cons_self _ _

theorem dictHas_false_of_not_mem [BEq β] [LawfulBEq β] (d : List (β × α))
    (k : β) (h : k ∉ d.map Prod.fst) : dictHas d k = false := by
  cases h2 : dictHas d k
  · rfl
  · exact absurd (mem_of_dictHas d k h2) h

theorem dictSet_not_has [BEq β] (d : List (β × α)) (k : β) (v : α)
    (h : dictHas d k = false) : dictSet d k v = d ++ [(k, v)] := by
  unfold dictSet
  rw [if_neg (by simp [h])]

end Midas

namespace Midas

theorem cShow_fields (st : Clinical.CState) :
    (Clinical.show_image st).labels = st.labels ∧
    (Clinical.show_image st).images = st.images ∧
    (Clinical.show_image st).index = st.index ∧
    (Clinical.show_image st).times = st.times ∧
    (Clinical.show_image st).cases = st.cases := by
  unfold Clinical.show_image
  cases st.images[st.index]? with
  | none => exact ⟨rfl, rfl, rfl, rfl, rfl⟩
  | some img =>
    dsimp only
    split <;> exact ⟨rfl, rfl, rfl, rfl, rfl⟩

theorem hShow_fields (st : Histopath.HState) :
    (Histopath.show_image st).labels = st.labels ∧
    (Histopath.show_image st).images = st.images ∧
    (Histopath.show_image st).index = st.index ∧
    (Histopath.show_image st).times = st.times ∧
    (Histopath.show_image st).cases = st.cases := by
  unfold Histopath.show_image
  split <;> exact ⟨rfl, rfl, rfl, rfl, rfl⟩

theorem noLineBreak_normalize (s : String) :
    noLineBreak (normalizeComment s) = true := by
  unfold noLineBreak normalizeComment
  rw [List.all_eq_true]
  intro c hc
  simp only [List.mem_map] at hc
  obtain ⟨c0, _, rfl⟩ := hc
  by_cases h1 : c0 = '\n'
  · subst h1; decide
  · by_cases h2 : c0 = '\r'
    · subst h2; decide
    · rw [if_neg h1, if_neg h2]
      simp [h1, h2]

theorem rows_from_length (times : List Nat) (ann : String) :
    ∀ (ls : List Histopath.HLabel) (i : Nat),
      (Histopath.rows_from times ann i ls).length = ls.length := by
  intro ls
  induction ls with
  | nil => intro i; rfl
  | cons l ls ih => intro i; simp [Histopath.rows_from, ih]

theorem rows_from_get (times : List Nat) (ann : String) :
    ∀ (ls : List Histopath.HLabel) (i j : Nat) (r : Histopath.HRow),
      (Histopath.rows_from times ann i ls)[j]? = some r →
      ∃ l, l ∈ ls ∧ r = Histopath.mkHRow ann l (timeCell times (i + j)) := by
  intro ls
  induction ls with
  | nil => intro i j r h; simp [Histopath.rows_from] at h
  | cons l ls ih =>
    intro i j r h
    cases j with
    | zero =>
      rw [Histopath.rows_from] at h
      rw [List.getElem?_cons_zero] at h
      exact ⟨l, List.mem_cons_self _ _, (Option.some_injective _ h).symm⟩
    | succ j =>
      rw [Histopath.rows_from, List.getElem?_cons_succ] at h
      obtain ⟨l2, hmem, hr⟩ := ih (i + 1) j r h
      refine ⟨l2, List.mem_cons_of_mem _ hmem, ?_⟩
      have harith : i + 1 + j = i + (j + 1) := by omega
      rw [harith] at hr
      exact hr

theorem rows_from_comment (times : List Nat) (ann : String) :
    ∀ (ls : List Histopath.HLabel) (i : Nat) (r : Histopath.HRow),
      r ∈ Histopath.rows_from times ann i ls →
      ∃ l, l ∈ ls ∧ r.comment = normalizeComment l.comment := by
  intro ls
  induction ls with
  | nil => intro i r h; simp [Histopath.rows_from] at h
  | cons l ls ih =>
    intro i r h
    rw [Histopath.rows_from] at h
    rcases List.mem_cons.mp h with rfl | h2
    · exact ⟨l, List.mem_cons_self _ _, rfl⟩
    · obtain ⟨l2, hmem, hc⟩ := ih (i + 1) r h2
      exact ⟨l2, List.mem_cons_of_mem _ hmem, hc⟩

theorem dedup_resolved_not_seen (res : α → String) :
    ∀ (cs : List α) (seen : List String) (x : α),
      x ∈ Clinical.dedupByResolved res seen cs → res x ∉ seen := by
  intro cs
  induction cs with
  | nil => intro seen x h; simp [Clinical.dedupByResolved] at h
  | cons c cs ih =>
    intro seen x h
    rw [Clinical.dedupByResolved] at h
    by_cases hc : res c ∈ seen
    · rw [if_pos hc] at h; exact ih seen x h
    · rw [if_neg hc] at h
      rcases List.mem_cons.mp h with rfl | h2
      · exact hc
      · intro hmem
        exact ih _ x h2 (List.mem_cons_of_mem _ hmem)

theorem dedup_pairwise (res : α → String) :
    ∀ (cs : List α) (seen : List String),
      (Clinical.dedupByResolved res seen cs).Pairwise
        (fun a b => res a ≠ res b) := by
  intro cs
  induction cs with
  | nil => intro seen; exact List.Pairwise.nil
  | cons c cs ih =>
    intro seen
    rw [Clinical.dedupByResolved]
    by_cases hc : res c ∈ seen
    · rw [if_pos hc]; exact ih seen
    · rw [if_neg hc]
      refine List.Pairwise.cons ?_ (ih _)
      intro b hb heq
      exact dedup_resolved_not_seen res cs (res c :: seen) b hb
        (by rw [← heq]; exact List.mem_cons_self _ _)

theorem dedup_countP (res : α → String) (r : String) :
    ∀ (cs : List α) (seen : List String),
      (Clinical.dedupByResolved res seen cs).countP (fun c => res c == r) =
        if r ∈ seen then 0 else if r ∈ cs.map res then 1 else 0 := by
  intro cs
  induction cs with
  | nil =>
    intro seen
    by_cases hr : r ∈ seen <;> simp [Clinical.dedupByResolved, hr]
  | cons c cs ih =>
    intro seen
    rw [Clinical.dedupByResolved, List.map_cons]
    by_cases hc : res c ∈ seen
    · rw [if_pos hc, ih]
      by_cases hr : r ∈ seen
      · rw [if_pos hr, if_pos hr]
      · have hne : r ≠ res c := fun h => hr (h ▸ hc)
        rw [if_neg hr, if_neg hr]
        by_cases hm : r ∈ cs.map res
        · rw [if_pos hm, if_pos (List.mem_cons_of_mem _ hm)]
        · rw [if_neg hm, if_neg (by
            intro h
            rcases List.mem_cons.mp h with h | h
            · exact hne h
            · exact hm h)]
    · rw [if_neg hc, List.countP_cons, ih]
      by_cases hrc : r = res c
      · subst hrc
        rw [if_pos (List.mem_cons_self _ _), if_neg hc,
            if_pos (List.mem_cons_self _ _)]
        simp
      · have hb : (res c == r) = false := by
          cases h3 : res c == r
          · rfl
          · exact absurd (eq_of_beq h3).symm hrc
        rw [hb]
        have hz : (if (false = true) then 1 else 0) = 0 := by simp
        rw [hz, Nat.add_zero]
        have hmemL : (r ∈ res c :: seen) ↔ r ∈ seen := by
          constructor
          · intro h
            rcases List.mem_cons.mp h with h | h
            · exact absurd h hrc
            · exact h
          · exact List.mem_cons_of_mem _
        have hmemR : (r ∈ res c :: cs.map res) ↔ r ∈ cs.map res := by
          constructor
          · intro h
            rcases List.mem_cons.mp h with h | h
            · exact absurd h hrc
            · exact h
          · exact List.mem_cons_of_mem _
        by_cases hr : r ∈ seen
        · rw [if_pos (hmemL.mpr hr), if_pos hr]
        · rw [if_neg (fun h => hr (hmemL.mp h)), if_neg hr]
          by_cases hm : r ∈ cs.map res
          · rw [if_pos hm, if_pos (hmemR.mpr hm)]
          · rw [if_neg hm, if_neg (fun h => hm (hmemR.mp h))]

theorem count_eq_countP_label (s : String) (cl : List (String × Clinical.CLabel)) :
    (cl.map (fun p => p.2.label)).count s = cl.countP (fun p => p.2.label == s) := by
  rw [List.count, List.countP_map]
  rfl

theorem countOf_foldl (d : Option String) :
    ∀ (ls : List Histopath.HLabel) (acc : List (Option String × Nat)),
      Histopath.countOf
        (ls.foldl (fun cnts l =>
          dictSet cnts l.diagnosis ((dictGet cnts l.diagnosis).getD 0 + 1)) acc) d =
      Histopath.countOf acc d + (ls.map (fun l => l.diagnosis)).count d := by
  intro ls
  induction ls with
  | nil => intro acc; simp
  | cons l ls ih =>
    intro acc
    rw [List.foldl_cons, ih, List.map_cons, List.count_cons]
    unfold Histopath.countOf
    by_cases hd : l.diagnosis = d
    · subst hd
      rw [dictGet_dictSet_self]
      simp only [Option.getD_some, beq_self_eq_true, if_pos]
      omega
    · rw [dictGet_dictSet_ne _ _ _ _ (fun h => hd h.symm)]
      have hb : (l.diagnosis == d) = false := by
        cases h3 : l.diagnosis == d
        · rfl
        · exact absurd (eq_of_beq h3) hd
      rw [hb]
      simp

end Midas

namespace Midas

theorem save_label_step (st : Clinical.CState) (img : Clinical.CImg) (c : String)
    (hget : st.images[st.index]? = some img)
    (hkey : dictHas st.labels (keyOf img.path) = false) :
    ∃ st3, Clinical.save_label st c "" 0 = some st3 ∧
      st3.labels = st.labels ++ [(keyOf img.path, Clinical.mkCLabel img c "")] ∧
      st3.images = st.images ∧ st3.index = st.index + 1 := by
  unfold Clinical.save_label
  rw [hget]
  simp only [Option.map_some']
  refine ⟨_, rfl, ?_, ?_, ?_⟩
  · rw [(cShow_fields _).1]
    dsimp only
    rw [dictSet_not_has _ _ _ hkey]
  · rw [(cShow_fields _).2.1]
  · rw [(cShow_fields _).2.2.1]

theorem runSaves_spec :
    ∀ (rest : List Clinical.CImg) (cats : List String) (st : Clinical.CState),
      st.images.drop st.index = rest →
      cats.length = rest.length →
      (rest.map Clinical.CImg.path).Nodup →
      (∀ p ∈ st.labels.map Prod.fst, p ∉ rest.map Clinical.CImg.path) →
      ∃ st2, Clinical.runSaves st cats = some st2 ∧
        st2.labels.map (fun q => q.2.label) =
          st.labels.map (fun q => q.2.label) ++ cats := by
  intro rest
  induction rest with
  | nil =>
    intro cats st hdrop hlen hnd hdisj
    have hcats : cats = [] := List.eq_nil_of_length_eq_zero hlen
    subst hcats
    exact ⟨st, rfl, by simp⟩
  | cons img rest2 ih =>
    intro cats st hdrop hlen hnd hdisj
    cases cats with
    | nil => simp at hlen
    | cons c cs =>
      have hget : st.images[st.index]? = some img := by
        rw [← List.head?_drop, hdrop]
        rfl
      have hkey : dictHas st.labels (keyOf img.path) = false := by
        apply dictHas_false_of_not_mem
        intro hmem
        exact hdisj _ hmem (by rw [List.map_cons]; exact List.mem_cons_self _ _)
      obtain ⟨st3, hsave, hlab, him, hidx⟩ := save_label_step st img c hget hkey
      rw [List.map_cons, List.nodup_cons] at hnd
      have h1 : st3.images.drop st3.index = rest2 := by
        rw [him, hidx, ← List.tail_drop, hdrop]
        rfl
      have h2 : cs.length = rest2.length := by
        simpa using hlen
      have h4 : ∀ p ∈ st3.labels.map Prod.fst, p ∉ rest2.map Clinical.CImg.path := by
        intro p hp
        rw [hlab, List.map_append] at hp
        rcases List.mem_append.mp hp with hp | hp
        · intro hmem
          exact hdisj p hp (by rw [List.map_cons]; exact List.mem_cons_of_mem _ hmem)
        · have hpk : p = keyOf img.path := by simpa using hp
          rw [hpk]
          exact hnd.1
      obtain ⟨st2, hrun, hmap⟩ := ih cs st3 h1 h2 hnd.2 h4
      refine ⟨st2, ?_, ?_⟩
      · rw [Clinical.runSaves, hsave]
        exact hrun
      · rw [hmap, hlab, List.map_append, List.append_assoc]
        rfl

end Midas

open Midas in
/-- C2: `Upsert(k, d)` followed by `Get(k)` returns exactly the
just-written record, and a second `Upsert(k, d2)` on the same key makes
`Get(k)` return exactly the second record — the prior record is
replaced wholesale, no field survives.  Stated for the label stores of
both variants (`self.labels[key] = {...}` / `self.labels.get(key)`). -/
theorem claim_C2 : ∀ (s : List (String × Histopath.HLabel)) (k : String)
    (v v2 : Histopath.HLabel) (s2 : List (String × Clinical.CLabel))
    (w w2 : Clinical.CLabel),
    dictGet (dictSet s k v) k = some v ∧
    dictGet (dictSet (dictSet s k v) k v2) k = some v2 ∧
    dictGet (dictSet s2 k w) k = some w ∧
    dictGet (dictSet (dictSet s2 k w) k w2) k = some w2 :=
  fun s k v v2 s2 w w2 =>
    ⟨dictGet_dictSet_self s k v, dictGet_dictSet_self _ k v2,
     dictGet_dictSet_self s2 k w, dictGet_dictSet_self _ k w2⟩

open Midas in
/-- C4: both catalog builders deduplicate by resolved absolute path
before sorting: each resolved path reachable from the walked candidates
appears exactly once in the catalog, so no two catalog records share a
key — even when the same underlying file is reachable via two different
subpaths (two candidates with equal `resolved`). -/
theorem claim_C4 : ∀ (hc : List Histopath.HCand) (cc : List Clinical.CCand)
    (r : String),
    (Histopath.find_histopath_images hc).Pairwise
      (fun a b => a.resolved ≠ b.resolved) ∧
    ((Histopath.find_histopath_images hc).countP (fun c => c.resolved == r) =
      if r ∈ hc.map Histopath.HCand.resolved then 1 else 0) ∧
    (Clinical.find_clinical_images cc).Pairwise
      (fun a b => a.resolved ≠ b.resolved) ∧
    ((Clinical.find_clinical_images cc).countP (fun c => c.resolved == r) =
      if r ∈ cc.map Clinical.CCand.resolved then 1 else 0) := by
  intro hc cc r
  refine ⟨?_, ?_, ?_, ?_⟩
  · exact (dedup_pairwise Histopath.HCand.resolved hc []).perm
      (List.perm_insertionSort _ _).symm (fun hne => Ne.symm hne)
  · rw [Histopath.find_histopath_images, (List.perm_insertionSort _ _).countP_eq,
        dedup_countP]
    rw [if_neg (List.not_mem_nil r)]
  · exact (dedup_pairwise Clinical.CCand.resolved cc []).perm
      (List.perm_insertionSort _ _).symm (fun hne => Ne.symm hne)
  · rw [Clinical.find_clinical_images, (List.perm_insertionSort _ _).countP_eq,
        dedup_countP]
    rw [if_neg (List.not_mem_nil r)]

open Midas in
/-- C8: the three boundary events are informational and state-free: a
clinical back-step with the history pointer at (or before) the first
position, a grading-variant advance at the last image, and a
clear-current on an image with no stored label each return the state
exactly unchanged (store, cursor, duration sequence) together with the
informational dialog. -/
theorem claim_C8 : ∀ (stA : Clinical.CState) (stB stC : Histopath.HState)
    (img : Histopath.ImgInfo),
    (stA.pointer ≤ 0 →
      Clinical.go_back stA = some (stA, some Note.startOfImages)) ∧
    (stB.images.length - 1 ≤ stB.index →
      Histopath.next_image stB = (stB, some Note.endOfImages)) ∧
    (stC.images[stC.index]? = some img →
      dictHas stC.labels (keyOf img.path) = false →
      Histopath.relabel_current stC = (stC, some Note.nothingToClear)) := by
  intro stA stB stC img
  refine ⟨fun h => ?_, fun h => ?_, fun h1 h2 => ?_⟩
  · rw [Clinical.go_back, if_neg (by omega)]
  · rw [Histopath.next_image, if_neg (by omega)]
  · unfold Histopath.relabel_current
    rw [h1]
    dsimp only
    rw [h2]
    simp

open Midas in
theorem claim_C8_witness :
    Clinical.go_back cStart = some (cStart, some Note.startOfImages) ∧
    Histopath.next_image hBase = (hBase, some Note.endOfImages) ∧
    Histopath.relabel_current hBase = (hBase, some Note.nothingToClear) :=
  have h := claim_C8 cStart hBase hBase hImg1
  ⟨h.1 (by decide), h.2.1 (by decide), h.2.2 (by decide) (by decide)⟩

open Midas in
/-- C9: the in-progress grading selection never holds the Ungradable
marker together with a tier value: a fresh primary selection starts
clean, selecting any of the three grading tiers removes the marker, and
selecting Ungradable removes every tier — the invariant holds after
every selection operation. -/
theorem claim_C9 : ∀ (stA stB stC : Histopath.HState)
    (diagnosis tier value : String),
    tier = "binary" ∨ tier = "three_tier" ∨ tier = "three_tier_diff" →
    Histopath.gradingInvariant
      (Histopath.select_primary stA diagnosis).current_grading ∧
    Histopath.gradingInvariant
      (Histopath.select_grading stB tier value).current_grading ∧
    Histopath.gradingInvariant
      (Histopath.select_ungradable stC).current_grading := by
  intro stA stB stC diagnosis tier value htier
  refine ⟨?_, ?_, ?_⟩
  · intro h
    exfalso
    rw [Histopath.select_primary] at h
    dsimp only at h
    rw [dictHas_cons] at h
    have hb : (("diagnosis" : String) == "ungradable") = false := by decide
    rw [hb] at h
    simp [dictHas, dictGet] at h
  · intro h
    exfalso
    have hne : ("ungradable" : String) ≠ tier := by
      rcases htier with rfl | rfl | rfl <;> decide
    rw [Histopath.select_grading] at h
    dsimp only at h
    rw [dictHas_dictSet_ne _ _ _ _ hne] at h
    by_cases hu : dictHas stB.current_grading "ungradable" = true
    · rw [if_pos hu, dictHas_dictDel_self] at h
      exact Bool.false_ne_true h
    · rw [if_neg hu] at h
      exact hu h
  · intro h
    refine ⟨?_, ?_, ?_⟩
    · rw [Histopath.select_ungradable]
      dsimp only
      rw [dictHas_dictSet_ne _ _ _ _ (by decide)]
      exact dictHas_filter_single _ _ _ (by decide)
    · rw [Histopath.select_ungradable]
      dsimp only
      rw [dictHas_dictSet_ne _ _ _ _ (by decide)]
      exact dictHas_filter_single _ _ _ (by decide)
    · rw [Histopath.select_ungradable]
      dsimp only
      rw [dictHas_dictSet_ne _ _ _ _ (by decide)]
      exact dictHas_filter_single _ _ _ (by decide)

open Midas in
theorem claim_C9_witness :
    Histopath.gradingInvariant
      (Histopath.select_primary hBase "Dysplasia").current_grading ∧
    Histopath.gradingInvariant
      (Histopath.select_grading hStUng "binary" "Low_Risk").current_grading ∧
    Histopath.gradingInvariant
      (Histopath.select_ungradable hStDysBinary).current_grading :=
  claim_C9 hBase hStUng hStDysBinary "Dysplasia" "binary" "Low_Risk"
    (Or.inl rfl)

open Midas in
/-- C10: in the grading CSV the `Time_Spent_sec` cell of the `i`-th
output row is taken from position `i` of the session duration sequence
— matched by row position — and every row at or beyond the duration
sequence's length gets the literal `"0"`; the writer is a total
function, so a duration/label count mismatch never makes export fail. -/
theorem claim_C10 : ∀ (labels : List (String × Histopath.HLabel))
    (times : List Nat) (ann : String) (i : Nat) (r : Histopath.HRow),
    (Histopath.write_csv_rows labels times ann)[i]? = some r →
    r.time_spent = timeCell times i ∧
    (times.length ≤ i → r.time_spent = "0") := by
  intro labels times ann i r h
  rw [Histopath.write_csv_rows] at h
  obtain ⟨l, -, rfl⟩ := rows_from_get times ann _ 0 i r h
  have hts : (Histopath.mkHRow ann l (timeCell times (0 + i))).time_spent =
      timeCell times i := by
    show timeCell times (0 + i) = timeCell times i
    rw [Nat.zero_add]
  refine ⟨hts, fun hlen => ?_⟩
  rw [hts]
  unfold timeCell
  rw [List.getElem?_eq_none hlen]

open Midas in
theorem claim_C10_witness :
    (Histopath.mkHRow "Ann" hLabComment "0").time_spent = timeCell [] 0 ∧
    (List.length ([] : List Nat) ≤ 0 →
      (Histopath.mkHRow "Ann" hLabComment "0").time_spent = "0") :=
  claim_C10 [(hImg1.path, hLabComment)] [] "Ann" 0
    (Histopath.mkHRow "Ann" hLabComment "0") (by decide)

open Midas in
/-- C3: every validation rejection (missing mandatory comment for
Indeterminate or Ungradable, incomplete Dysplasia or Cancer grading
combination) returns the state exactly unchanged — no store entry is
added, removed or modified and the cursor stays put — together with the
warning dialog, so the user can complete the fields and resubmit. -/
theorem claim_C3 : ∀ (stA stB stC stD : Histopath.HState)
    (subtype rawc : String) (d : Nat),
    (Histopath.gradingStr stA.current_grading "diagnosis" = some "Indeterminate" →
      pyStrip rawc = "" →
      Histopath.save_label_simple stA subtype rawc d =
        some (stA, some Note.commentRequired)) ∧
    (Histopath.gradTruthy stB.current_grading "ungradable" = true →
      pyStrip rawc = "" →
      Histopath.save_multi_tier_label stB rawc d =
        some (stB, some Note.commentRequired)) ∧
    (Histopath.gradTruthy stC.current_grading "ungradable" = false →
      Histopath.gradingStr stC.current_grading "diagnosis" = some "Dysplasia" →
      (dictGet stC.current_grading "binary" = none ∨
       dictGet stC.current_grading "three_tier" = none) →
      Histopath.save_multi_tier_label stC rawc d =
        some (stC, some Note.incompleteGrading)) ∧
    (Histopath.gradTruthy stD.current_grading "ungradable" = false →
      Histopath.gradingStr stD.current_grading "diagnosis" = some "Cancer" →
      dictGet stD.current_grading "three_tier_diff" = none →
      Histopath.save_multi_tier_label stD rawc d =
        some (stD, some Note.incompleteGrading)) := by
  intro stA stB stC stD subtype rawc d
  refine ⟨fun h1 h2 => ?_, fun h1 h2 => ?_, fun h1 h2 h3 => ?_,
          fun h1 h2 h3 => ?_⟩
  · simp [Histopath.save_label_simple, h1, h2]
  · simp [Histopath.save_multi_tier_label, h1, h2]
  · rcases h3 with h3 | h3
    · cases hT : dictGet stC.current_grading "three_tier" <;>
        simp [Histopath.save_multi_tier_label, h1, h2, h3, hT]
    · cases hB : dictGet stC.current_grading "binary" <;>
        simp [Histopath.save_multi_tier_label, h1, h2, h3, hB]
  · simp [Histopath.save_multi_tier_label, h1, h2, h3]

open Midas in
theorem claim_C3_witness :
    Histopath.save_label_simple hStInd "" "" 0 =
      some (hStInd, some Note.commentRequired) ∧
    Histopath.save_multi_tier_label hStUng "" 0 =
      some (hStUng, some Note.commentRequired) ∧
    Histopath.save_multi_tier_label hStDysBinary "" 0 =
      some (hStDysBinary, some Note.incompleteGrading) ∧
    Histopath.save_multi_tier_label hStCancer "" 0 =
      some (hStCancer, some Note.incompleteGrading) :=
  have h := claim_C3 hStInd hStUng hStDysBinary hStCancer "" "" 0
  ⟨h.1 (by decide) (by decide), h.2.1 (by decide) (by decide),
   h.2.2.1 (by decide) (by decide) (Or.inr (by decide)),
   h.2.2.2 (by decide) (by decide) (by decide)⟩

namespace Midas

theorem hsave_step (st : Histopath.HState) (img : Histopath.ImgInfo)
    (diagnosis : Option String) (subtype comment : String) (d : Nat)
    (himg : st.images[st.index]? = some img) :
    ∃ st2, Histopath.save_label_to_storage st diagnosis subtype comment d =
        some st2 ∧
      st2.labels = dictSet st.labels (keyOf img.path)
        (Histopath.mkHLabel img diagnosis subtype comment) := by
  unfold Histopath.save_label_to_storage
  rw [himg]
  simp only [Option.map_some']
  exact ⟨_, rfl, (hShow_fields _).1⟩

theorem csave_step (st : Clinical.CState) (img : Clinical.CImg)
    (lab comment : String) (d : Nat)
    (himg : st.images[st.index]? = some img) :
    ∃ st2, Clinical.save_label st lab comment d = some st2 ∧
      st2.labels = dictSet st.labels (keyOf img.path)
        (Clinical.mkCLabel img lab comment) := by
  unfold Clinical.save_label
  rw [himg]
  simp only [Option.map_some']
  exact ⟨_, rfl, (cShow_fields _).1⟩

end Midas

open Midas in
/-- C1 counterexample: in the simple variant the NA dialog performs no
comment validation — submitting NA with an empty comment on a fresh
image is not rejected and a record is stored under the image's key,
refuting the claimed rejection for the `NA` case. -/
theorem claim_C1_counterexample :
    (Clinical.comment_window_save cStart "" 0).map
        (fun st2 => dictGet st2.labels "/r/CaseA/V1/XC/a.jpg") =
      some (some { case_id := "CaseA", visit_id := "V1", file := "a.jpg",
                   label := "NA", comment := "" }) := by
  decide

open Midas in
/-- C1 amended: in the grading variant, Indeterminate and Ungradable
submissions with an empty (stripped) comment are rejected with a
comment-required warning and the state is unchanged, while the same
submission with a non-empty comment succeeds and stores the record
under the image's key; in the simple variant the NA dialog stores the
record regardless of whether the comment is empty — no validation. -/
theorem claim_C1_amended : ∀ (stA stB : Histopath.HState)
    (stC : Clinical.CState) (subtype rawe rawn : String) (d : Nat)
    (img : Histopath.ImgInfo) (cimg : Clinical.CImg),
    (Histopath.gradingStr stA.current_grading "diagnosis" = some "Indeterminate" →
      pyStrip rawe = "" →
      Histopath.save_label_simple stA subtype rawe d =
        some (stA, some Note.commentRequired)) ∧
    (Histopath.gradingStr stA.current_grading "diagnosis" = some "Indeterminate" →
      pyStrip rawn ≠ "" →
      stA.images[stA.index]? = some img →
      ∃ st2, Histopath.save_label_simple stA subtype rawn d = some (st2, none) ∧
        dictGet st2.labels (keyOf img.path) =
          some (Histopath.mkHLabel img (some "Indeterminate") subtype
            (pyStrip rawn))) ∧
    (Histopath.gradTruthy stB.current_grading "ungradable" = true →
      pyStrip rawe = "" →
      Histopath.save_multi_tier_label stB rawe d =
        some (stB, some Note.commentRequired)) ∧
    (Histopath.gradTruthy stB.current_grading "ungradable" = true →
      pyStrip rawn ≠ "" →
      stB.images[stB.index]? = some img →
      ∃ st2, Histopath.save_multi_tier_label stB rawn d = some (st2, none) ∧
        dictGet st2.labels (keyOf img.path) =
          some (Histopath.mkHLabel img
            (Histopath.gradingStr stB.current_grading "diagnosis") "Ungradable"
            (pyStrip rawn))) ∧
    (stC.images[stC.index]? = some cimg →
      ∃ st2, Clinical.comment_window_save stC rawe d = some st2 ∧
        dictGet st2.labels (keyOf cimg.path) =
          some (Clinical.mkCLabel cimg "NA" (pyStrip rawe))) := by
  intro stA stB stC subtype rawe rawn d img cimg
  refine ⟨fun h1 h2 => ?_, fun h1 h2 himg => ?_, fun h1 h2 => ?_,
          fun h1 h2 himg => ?_, fun himg => ?_⟩
  · simp [Histopath.save_label_simple, h1, h2]
  · have hb : (pyStrip rawn == "") = false := by
      cases hx : pyStrip rawn == ""
      · rfl
      · exact absurd (eq_of_beq hx) h2
    obtain ⟨st2, hsave, hlab⟩ :=
      hsave_step stA img (some "Indeterminate") subtype (pyStrip rawn) d himg
    refine ⟨st2, ?_, ?_⟩
    · simp only [Histopath.save_label_simple, h1, hb, beq_self_eq_true,
        Bool.and_false]
      rw [if_neg (by simp), hsave]
      rfl
    · rw [hlab, dictGet_dictSet_self]
  · simp [Histopath.save_multi_tier_label, h1, h2]
  · have hb : (pyStrip rawn == "") = false := by
      cases hx : pyStrip rawn == ""
      · rfl
      · exact absurd (eq_of_beq hx) h2
    obtain ⟨st2, hsave, hlab⟩ :=
      hsave_step stB img (Histopath.gradingStr stB.current_grading "diagnosis")
        "Ungradable" (pyStrip rawn) d himg
    refine ⟨st2, ?_, ?_⟩
    · simp only [Histopath.save_multi_tier_label, h1, hb]
      rw [if_pos trivial, if_neg (by simp), hsave]
      rfl
    · rw [hlab, dictGet_dictSet_self]
  · obtain ⟨st2, hsave, hlab⟩ :=
      csave_step stC cimg "NA" (pyStrip rawe) d himg
    refine ⟨st2, ?_, ?_⟩
    · rw [Clinical.comment_window_save, hsave]
    · rw [hlab, dictGet_dictSet_self]

open Midas in
theorem claim_C1_amended_witness :
    Histopath.save_label_simple hStInd "" "" 0 =
      some (hStInd, some Note.commentRequired) ∧
    (∃ st2, Histopath.save_label_simple hStInd "" "unclear margin" 0 =
        some (st2, none) ∧
      dictGet st2.labels (keyOf hImg1.path) =
        some (Histopath.mkHLabel hImg1 (some "Indeterminate") ""
          (pyStrip "unclear margin"))) ∧
    Histopath.save_multi_tier_label hStUng "" 0 =
      some (hStUng, some Note.commentRequired) ∧
    (∃ st2, Histopath.save_multi_tier_label hStUng "unclear margin" 0 =
        some (st2, none) ∧
      dictGet st2.labels (keyOf hImg1.path) =
        some (Histopath.mkHLabel hImg1
          (Histopath.gradingStr hStUng.current_grading "diagnosis") "Ungradable"
          (pyStrip "unclear margin"))) ∧
    (∃ st2, Clinical.comment_window_save cStart "" 0 = some st2 ∧
      dictGet st2.labels (keyOf imgA.path) =
        some (Clinical.mkCLabel imgA "NA" (pyStrip ""))) :=
  have h := claim_C1_amended hStInd hStUng cStart "" "" "unclear margin" 0
    hImg1 imgA
  ⟨h.1 (by decide) (by decide), h.2.1 (by decide) (by decide) (by decide),
   h.2.2.1 (by decide) (by decide),
   h.2.2.2.1 (by decide) (by decide) (by decide),
   h.2.2.2.2 (by decide)⟩

open Midas in
/-- C5: for diagnosis Dysplasia, submitting with only the binary tier
selected (and no Ungradable marker) is rejected with the incomplete
warning and stores nothing; selecting binary `Low_Risk` and three-tier
`Mild` (the selection sequence builds exactly that grading dict) and
submitting succeeds and stores the record with subtype exactly
`"Binary:Low_Risk|ThreeTier:Mild"`. -/
theorem claim_C5 : ∀ (stA stB stZ : Histopath.HState) (rawc : String)
    (d : Nat) (img : Histopath.ImgInfo),
    (Histopath.gradTruthy stA.current_grading "ungradable" = false →
      Histopath.gradingStr stA.current_grading "diagnosis" = some "Dysplasia" →
      dictHas stA.current_grading "binary" = true →
      dictGet stA.current_grading "three_tier" = none →
      Histopath.save_multi_tier_label stA rawc d =
        some (stA, some Note.incompleteGrading)) ∧
    ((Histopath.select_grading (Histopath.select_grading
        (Histopath.select_primary stZ "Dysplasia") "binary" "Low_Risk")
        "three_tier" "Mild").current_grading =
      [("diagnosis", GVal.str "Dysplasia"), ("binary", GVal.str "Low_Risk"),
       ("three_tier", GVal.str "Mild")]) ∧
    (stB.current_grading =
      [("diagnosis", GVal.str "Dysplasia"), ("binary", GVal.str "Low_Risk"),
       ("three_tier", GVal.str "Mild")] →
      stB.images[stB.index]? = some img →
      ∃ st2, Histopath.save_multi_tier_label stB rawc d = some (st2, none) ∧
        dictGet st2.labels (keyOf img.path) =
          some (Histopath.mkHLabel img (some "Dysplasia")
            "Binary:Low_Risk|ThreeTier:Mild" (pyStrip rawc))) := by
  intro stA stB stZ rawc d img
  refine ⟨fun h1 h2 h3 h4 => ?_, ?_, fun hg himg => ?_⟩
  · have hB : ∃ b, dictGet stA.current_grading "binary" = some b := by
      unfold dictHas at h3
      exact Option.isSome_iff_exists.mp h3
    obtain ⟨b, hb⟩ := hB
    simp [Histopath.save_multi_tier_label, h1, h2, hb, h4]
  · rfl
  · have h1 : Histopath.gradTruthy stB.current_grading "ungradable" = false := by
      rw [hg]; decide
    have h2 : Histopath.gradingStr stB.current_grading "diagnosis" =
        some "Dysplasia" := by
      rw [hg]; decide
    have hb : dictGet stB.current_grading "binary" =
        some (GVal.str "Low_Risk") := by
      rw [hg]; decide
    have ht : dictGet stB.current_grading "three_tier" =
        some (GVal.str "Mild") := by
      rw [hg]; decide
    obtain ⟨st2, hsave, hlab⟩ :=
      hsave_step stB img (Histopath.gradingStr stB.current_grading "diagnosis")
        ("Binary:" ++ (GVal.str "Low_Risk").render ++ "|ThreeTier:" ++
          (GVal.str "Mild").render) (pyStrip rawc) d himg
    refine ⟨st2, ?_, ?_⟩
    · simp only [Histopath.save_multi_tier_label, h1, hb, ht]
      rw [if_neg (by simp), if_pos (by rw [h2]; decide), hsave]
      rfl
    · rw [hlab, dictGet_dictSet_self, h2]
      rfl

open Midas in
theorem claim_C5_witness :
    Histopath.save_multi_tier_label hStDysBinary "" 0 =
      some (hStDysBinary, some Note.incompleteGrading) ∧
    (Histopath.select_grading (Histopath.select_grading
        (Histopath.select_primary hBase "Dysplasia") "binary" "Low_Risk")
        "three_tier" "Mild").current_grading =
      [("diagnosis", GVal.str "Dysplasia"), ("binary", GVal.str "Low_Risk"),
       ("three_tier", GVal.str "Mild")] ∧
    (∃ st2, Histopath.save_multi_tier_label hStDysBoth "" 0 =
        some (st2, none) ∧
      dictGet st2.labels (keyOf hImg1.path) =
        some (Histopath.mkHLabel hImg1 (some "Dysplasia")
          "Binary:Low_Risk|ThreeTier:Mild" (pyStrip ""))) :=
  have h := claim_C5 hStDysBinary hStDysBoth hBase "" 0 hImg1
  ⟨h.1 (by decide) (by decide) (by decide) (by decide), h.2.1,
   h.2.2 (by decide) (by decide)⟩

open Midas in
/-- C6 counterexample: on a store holding two records of the same case
and visit — `z.jpg` under a `CLINICAL` folder and `a.jpg` under an `XC`
folder — the clinical writer (sorted by file name) emits `a.jpg` first,
while the catalog order (sorted by full path string) puts `z.jpg`
first: the rows are not sorted by the same key as the catalog order. -/
theorem claim_C6_counterexample :
    (Clinical.write_csv_rows storeZA).map (fun r => r.file) =
      ["a.jpg", "z.jpg"] ∧
    (Clinical.rows_in_catalog_order storeZA).map (fun r => r.file) =
      ["z.jpg", "a.jpg"] ∧
    Clinical.write_csv_rows storeZA ≠ Clinical.rows_in_catalog_order storeZA :=
  ⟨by decide, by decide, by decide⟩

open Midas in
/-- C6 amended: both writers emit exactly one row per stored record,
with every comment normalised (each embedded newline or carriage return
becomes a space, so no line break reaches a row).  The grading writer
sorts its rows by exactly the catalog sort key
`(case, visit, body site, magnification value, filename)`; the simple
writer sorts by `(case, visit, file name)`, which can deviate from the
catalog order (keyed by the full path string). -/
theorem claim_C6_amended : ∀ (hl : List (String × Histopath.HLabel))
    (times : List Nat) (ann : String) (cl : List (String × Clinical.CLabel))
    (hrow : Histopath.HRow) (crow : Clinical.CRow),
    (Histopath.write_csv_rows hl times ann).length = hl.length ∧
    List.Sorted (keyLE Histopath.hLabKey) (Histopath.sorted_labels hl) ∧
    (Clinical.write_csv_rows cl).length = cl.length ∧
    List.Sorted (keyLE Clinical.cLabKey)
      (List.insertionSort (keyLE Clinical.cLabKey) (cl.map (fun p => p.2))) ∧
    (hrow ∈ Histopath.write_csv_rows hl times ann →
      noLineBreak hrow.comment = true ∧
      ∃ p, p ∈ hl ∧ hrow.comment = normalizeComment p.2.comment) ∧
    (crow ∈ Clinical.write_csv_rows cl →
      noLineBreak crow.comment = true ∧
      ∃ p, p ∈ cl ∧ crow.comment = normalizeComment p.2.comment) := by
  intro hl times ann cl hrow crow
  refine ⟨?_, ?_, ?_, ?_, fun hmem => ?_, fun hmem => ?_⟩
  · rw [Histopath.write_csv_rows, rows_from_length, Histopath.sorted_labels,
        (List.perm_insertionSort _ _).length_eq, List.length_map]
  · exact List.sorted_insertionSort _ _
  · rw [Clinical.write_csv_rows, List.length_map,
        (List.perm_insertionSort _ _).length_eq, List.length_map]
  · exact List.sorted_insertionSort _ _
  · rw [Histopath.write_csv_rows] at hmem
    obtain ⟨l, hl2, hc⟩ := rows_from_comment times ann _ 0 hrow hmem
    rw [Histopath.sorted_labels, List.mem_insertionSort] at hl2
    obtain ⟨p, hp, hpl⟩ := List.mem_map.mp hl2
    refine ⟨by rw [hc]; exact noLineBreak_normalize _, p, hp, ?_⟩
    rw [hc, hpl]
  · rw [Clinical.write_csv_rows] at hmem
    obtain ⟨l, hl2, hcrow⟩ := List.mem_map.mp hmem
    rw [List.mem_insertionSort] at hl2
    obtain ⟨p, hp, hpl⟩ := List.mem_map.mp hl2
    refine ⟨?_, p, hp, ?_⟩
    · rw [← hcrow]
      exact noLineBreak_normalize _
    · rw [← hcrow, hpl]
      rfl

open Midas in
theorem claim_C6_amended_witness :
    (Histopath.write_csv_rows [(hImg1.path, hLabComment)] [] "Ann").length =
      [(hImg1.path, hLabComment)].length ∧
    List.Sorted (keyLE Histopath.hLabKey)
      (Histopath.sorted_labels [(hImg1.path, hLabComment)]) ∧
    (Clinical.write_csv_rows storeZA).length = storeZA.length ∧
    List.Sorted (keyLE Clinical.cLabKey)
      (List.insertionSort (keyLE Clinical.cLabKey)
        (storeZA.map (fun p => p.2))) ∧
    (noLineBreak (Histopath.mkHRow "Ann" hLabComment "0").comment = true ∧
      ∃ p, p ∈ [(hImg1.path, hLabComment)] ∧
        (Histopath.mkHRow "Ann" hLabComment "0").comment =
          normalizeComment p.2.comment) ∧
    (noLineBreak (Clinical.mkCRow labA).comment = true ∧
      ∃ p, p ∈ storeZA ∧
        (Clinical.mkCRow labA).comment = normalizeComment p.2.comment) :=
  have h := claim_C6_amended [(hImg1.path, hLabComment)] [] "Ann" storeZA
    (Histopath.mkHRow "Ann" hLabComment "0") (Clinical.mkCRow labA)
  ⟨h.1, h.2.1, h.2.2.1, h.2.2.2.1, h.2.2.2.2.1 (by decide),
   h.2.2.2.2.2 (by decide)⟩

open Midas in
/-- C7: the aggregate per-category counts are computed freshly from the
current store contents — for every store they equal the exact multiset
count of the stored categories — and labelling a run of N images (in
any store state reachable by navigation, here the full sequential run
over a duplicate-free catalog) yields counts equal to the multiset
count of the submitted categories C1..CN: the key-indexed store makes
re-labelling overwrite rather than double count. -/
theorem claim_C7 : ∀ (cl : List (String × Clinical.CLabel))
    (hl : List (String × Histopath.HLabel)) (d : Option String)
    (images : List Clinical.CImg) (cats : List String)
    (stG st3 : Clinical.CState) (note : Option Note),
    Clinical.countSuspicious cl =
      (cl.map (fun p => p.2.label)).count "Suspicious" ∧
    Clinical.countNonSuspicious cl =
      (cl.map (fun p => p.2.label)).count "Non-Suspicious" ∧
    Clinical.countNA cl = (cl.map (fun p => p.2.label)).count "NA" ∧
    Histopath.countOf (Histopath.summary_counts hl) d =
      (hl.map (fun p => p.2.diagnosis)).count d ∧
    ((images.map Clinical.CImg.path).Nodup → cats.length = images.length →
      ∃ st2, Clinical.runSaves (Clinical.initState images) cats = some st2 ∧
        st2.labels.map (fun q => q.2.label) = cats ∧
        Clinical.countSuspicious st2.labels = cats.count "Suspicious" ∧
        Clinical.countNonSuspicious st2.labels = cats.count "Non-Suspicious" ∧
        Clinical.countNA st2.labels = cats.count "NA") ∧
    (Clinical.go_back stG = some (st3, note) → st3.labels = stG.labels) := by
  intro cl hl d images cats stG st3 note
  refine ⟨(count_eq_countP_label "Suspicious" cl).symm,
          (count_eq_countP_label "Non-Suspicious" cl).symm,
          (count_eq_countP_label "NA" cl).symm, ?_, fun hnd hlen => ?_,
          fun hgb => ?_⟩
  · rw [Histopath.summary_counts, countOf_foldl, List.map_map]
    show 0 + _ = _
    rw [Nat.zero_add]
    rfl
  · have hfields := cShow_fields
      { images := images, index := 0, labels := [], history := [],
        pointer := -1, times := [], cases := [], image_start := false }
    obtain ⟨st2, hrun, hmap⟩ := runSaves_spec images cats
      (Clinical.initState images)
      (by rw [Clinical.initState, hfields.2.1, hfields.2.2.1]; exact List.drop_zero _)
      (by rw [hlen]) hnd
      (by rw [Clinical.initState, hfields.1]; intro p hp; simp at hp)
    rw [Clinical.initState, hfields.1] at hmap
    simp only [List.map_nil, List.nil_append] at hmap
    refine ⟨st2, hrun, hmap, ?_, ?_, ?_⟩
    · have e := (count_eq_countP_label "Suspicious" st2.labels).symm
      rw [hmap] at e
      exact e
    · have e := (count_eq_countP_label "Non-Suspicious" st2.labels).symm
      rw [hmap] at e
      exact e
    · have e := (count_eq_countP_label "NA" st2.labels).symm
      rw [hmap] at e
      exact e
  · by_cases hp : 0 < stG.pointer
    · rw [Clinical.go_back, if_pos hp] at hgb
      dsimp only at hgb
      cases hh : stG.history[(stG.pointer - 1).toNat]? with
      | none => rw [hh] at hgb; cases hgb
      | some pk =>
        rw [hh] at hgb
        dsimp only at hgb
        have h1 : Clinical.show_image _ = st3 :=
          congrArg Prod.fst (Option.some.inj hgb)
        rw [← h1, (cShow_fields _).1]
    · rw [Clinical.go_back, if_neg hp] at hgb
      have h1 : stG = st3 := congrArg Prod.fst (Option.some.inj hgb)
      rw [← h1]

open Midas in
theorem claim_C7_witness :
    Clinical.countSuspicious storeZA =
      (storeZA.map (fun p => p.2.label)).count "Suspicious" ∧
    Clinical.countNonSuspicious storeZA =
      (storeZA.map (fun p => p.2.label)).count "Non-Suspicious" ∧
    Clinical.countNA storeZA = (storeZA.map (fun p => p.2.label)).count "NA" ∧
    Histopath.countOf
        (Histopath.summary_counts [(hImg1.path, hLabComment)]) (some "Normal") =
      ([(hImg1.path, hLabComment)].map (fun p => p.2.diagnosis)).count
        (some "Normal") ∧
    (∃ st2, Clinical.runSaves (Clinical.initState [imgZ, imgA])
          ["Suspicious", "NA"] = some st2 ∧
      st2.labels.map (fun q => q.2.label) = ["Suspicious", "NA"] ∧
      Clinical.countSuspicious st2.labels =
        (["Suspicious", "NA"] : List String).count "Suspicious" ∧
      Clinical.countNonSuspicious st2.labels =
        (["Suspicious", "NA"] : List String).count "Non-Suspicious" ∧
      Clinical.countNA st2.labels =
        (["Suspicious", "NA"] : List String).count "NA") ∧
    cStart.labels = cStart.labels :=
  have h := claim_C7 storeZA [(hImg1.path, hLabComment)] (some "Normal")
    [imgZ, imgA] ["Suspicious", "NA"] cStart cStart
    (some Note.startOfImages)
  ⟨h.1, h.2.1, h.2.2.1, h.2.2.2.1, h.2.2.2.2.1 (by decide) (by decide),
   h.2.2.2.2.2 (by decide)⟩
